import Mathlib

/-!
Shallow embedding of the dynamic endpoint pool of kit.go.

The embedding covers:
* the endpoint cache (Go type endpointCache: Update, updateCache, Endpoints),
* the load balancers (Go types random and roundRobin, and FixedEndpointer),
* a spec-modelled retry executor (its implementation is not part of the
  source tree; only its tests and callers are).

Modelling conventions:
* Go endpoints (endpoint.Endpoint values) are abstract values of a type
  parameter Op; identity of the Go function value is value equality of Op.
* io.Closer values are identified by numeric ids (Option Nat, none = nil).
* Go errors are abstract values of a type parameter E (nil error = none).
* The Go map cache (map[string]endpointCloser) is modelled as an
  association list with map semantics (insert overwrites, lookup finds the
  stored value, delete removes the key).
* time.Time is modelled as Nat; the injected clock timeNow becomes an
  explicit now argument of each operation.
* The factory field set at construction and never mutated is passed as an
  explicit argument to each operation.
* Mutation is modelled by returning the new state.  The closers closed
  during a call and the set of instances the factory was invoked on are
  returned alongside, as observable traces of the side effects; the
  in-place sort.Strings of the instances slice of the event is returned
  as the instancesAfter component (the content of the caller-visible
  slice after the call).
-/

namespace KitGo

/-- Go struct endpointCloser: a constructed endpoint bundled with its
optional io.Closer. -/
structure endpointCloser (Op : Type) where
  endpoint : Op
  closer : Option Nat
  deriving DecidableEq, Repr

/-- Go struct sd.Event: a complete set of instance strings, or an error. -/
structure Event (E : Type) where
  instances : List String
  err : Option E
  deriving DecidableEq, Repr

/-- Go type sd.Factory: converts an instance string to an endpoint and an
optional closer, or fails (none models the error return, whose value is
only logged). -/
def Factory (Op : Type) : Type := String → Option (Op × Option Nat)

/-- Go map lookup m[k]: the binding stored for key k, if any. -/
def mget {β : Type} : List (String × β) → String → Option β
  | [], _ => none
  | p :: m, k => if p.1 = k then some p.2 else mget m k

/-- Go map delete(m, k): removes the binding for key k. -/
def merase {β : Type} : List (String × β) → String → List (String × β)
  | [], _ => []
  | p :: m, k => if p.1 = k then merase m k else p :: merase m k

/-- Go map assignment m[k] = v (overwrites any previous binding). -/
def minsert {β : Type} (m : List (String × β)) (k : String) (v : β) :
    List (String × β) :=
  merase m k ++ [(k, v)]

/-- The mutable fields of Go struct endpointCache, with the endpointer
options inlined (the lock, logger, factory and clock carry no state that
the claims depend on; factory and clock are passed to the operations). -/
structure endpointCache (Op E : Type) where
  invalidateOnError : Bool
  invalidateTimeout : Nat
  cache : List (String × endpointCloser Op)
  err : Option E
  endpoints : List Op
  invalidateDeadline : Nat
  deriving DecidableEq, Repr

/-- The loop of updateCache over the sorted instances: builds the new map,
consuming (deleting carried-over keys from) the old map, invoking the
factory only on cache misses.  Returns the new map, the leftover of the
old map, and the instances the factory was invoked on (in order). -/
def buildCache {Op : Type} (factory : Factory Op) :
    List String → List (String × endpointCloser Op) →
      List (String × endpointCloser Op) →
      List (String × endpointCloser Op) × List (String × endpointCloser Op) ×
        List String
  | [], newC, oldC => (newC, oldC, [])
  | inst :: rest, newC, oldC =>
    match mget oldC inst with
    | some sc => buildCache factory rest (minsert newC inst sc) (merase oldC inst)
    | none =>
      match factory inst with
      | some (service, closer) =>
        let r := buildCache factory rest (minsert newC inst ⟨service, closer⟩) oldC
        (r.1, r.2.1, inst :: r.2.2)
      | none =>
        let r := buildCache factory rest newC oldC
        (r.1, r.2.1, inst :: r.2.2)

/-- Result of one call of Update (or updateCache): the new cache state, the
closer ids closed during the call, the content of the caller's instances
slice after the call (sort.Strings sorts it in place), and the instances
the factory was invoked on. -/
structure UpdateOut (Op E : Type) where
  state : endpointCache Op E
  closed : List Nat
  instancesAfter : List String
  factoryCalls : List String
  deriving DecidableEq, Repr

/-- Go method endpointCache.updateCache: sort the instances (in place),
carry over existing entries, create missing ones via the factory (skipping
per-instance factory failures), close every leftover entry with a non-nil
closer, and rebuild the endpoints slice in sorted instance order. -/
def updateCache {Op E : Type} (factory : Factory Op) (c : endpointCache Op E)
    (instances : List String) : UpdateOut Op E :=
  let sorted := List.insertionSort (· ≤ ·) instances
  let r := buildCache factory sorted [] c.cache
  let closed := r.2.1.filterMap (fun p => p.2.closer)
  let endpoints := sorted.filterMap (fun i => (mget r.1 i).map (fun sc => sc.endpoint))
  ⟨{ c with cache := r.1, endpoints := endpoints }, closed, sorted, r.2.2⟩

/-- Go method endpointCache.Update.  Happy path: recompute the cache and
clear the error.  Sad path: if invalidation is disabled, or an error is
already recorded, do nothing; otherwise record the error and set the
invalidate deadline to now plus the configured timeout. -/
def update {Op E : Type} (factory : Factory Op) (c : endpointCache Op E)
    (now : Nat) (event : Event E) : UpdateOut Op E :=
  match event.err with
  | none =>
    let r := updateCache factory c event.instances
    ⟨{ r.state with err := none }, r.closed, r.instancesAfter, r.factoryCalls⟩
  | some e =>
    if !c.invalidateOnError then ⟨c, [], event.instances, []⟩
    else if c.err.isSome then ⟨c, [], event.instances, []⟩
    else
      ⟨{ c with err := some e, invalidateDeadline := now + c.invalidateTimeout },
        [], event.instances, []⟩

/-- Result of one call of Endpoints: the returned pair (endpoints slice,
error), the state after the call, and the closer ids closed by the call. -/
structure EndpointsOut (Op E : Type) where
  result : List Op × Option E
  state : endpointCache Op E
  closed : List Nat
  deriving DecidableEq, Repr

/-- Go method endpointCache.Endpoints.  Fast path: no recorded error, or
the clock is still before the invalidate deadline: return the snapshot and
no error.  Slow path: synthesize an empty update (closing all entries) and
return (nil, lastError).  The double-checked re-check after the lock
upgrade re-evaluates the same condition; with a single now per call it
reduces to one check in this sequential model. -/
def endpointsCall {Op E : Type} (factory : Factory Op) (c : endpointCache Op E)
    (now : Nat) : EndpointsOut Op E :=
  if c.err.isNone || decide (now < c.invalidateDeadline) then
    ⟨(c.endpoints, none), c, []⟩
  else
    let r := updateCache factory c []
    ⟨([], c.err), r.state, r.closed⟩

/-- Applying a sequence of timestamped discovery events in order (the
endpoint pool's consumer task). -/
def applyEvents {Op E : Type} (factory : Factory Op)
    (evs : List (Nat × Event E)) (c : endpointCache Op E) : endpointCache Op E :=
  evs.foldl (fun s te => (update factory s te.1 te.2).state) c

/-! ### Balancers (Go package lb) -/

/-- Outcome of a Balancer.Endpoint call: a selected endpoint, the error
propagated from the endpointer, or the distinguished ErrNoEndpoints. -/
inductive LBResult (Op E : Type) where
  | endpoint (op : Op)
  | endpointerError (e : E)
  | errNoEndpoints
  deriving DecidableEq, Repr

/-- Go method FixedEndpointer.Endpoints: always returns the fixed slice
and a nil error.  A value of this type models one reply of an
Endpointer.Endpoints call in general. -/
def FixedEndpointer {Op E : Type} (eps : List Op) : List Op × Option E :=
  (eps, none)

/-- Go method random.Endpoint: fetch the current endpoints; propagate an
endpointer error; return ErrNoEndpoints on an empty slice; otherwise pick
the index drawn by rand.Intn.  Intn n yields a value in [0, n), modelled
by reducing the supplied draw modulo n. -/
def randomEndpoint {Op E : Type} (reply : List Op × Option E)
    (intn : Nat → Nat) : LBResult Op E :=
  match reply with
  | (_, some e) => .endpointerError e
  | (endpoints, none) =>
    if h : endpoints.length ≤ 0 then .errNoEndpoints
    else .endpoint (endpoints.get
      ⟨intn endpoints.length % endpoints.length, Nat.mod_lt _ (Nat.lt_of_not_le h)⟩)

/-- The modulus of Go's uint64 arithmetic. -/
def uint64Mod : Nat := 2 ^ 64

/-- The mutable state of Go struct roundRobin: the uint64 call counter. -/
structure roundRobin where
  c : Nat
  deriving DecidableEq, Repr

/-- Go function NewRoundRobin: counter starts at 0. -/
def newRoundRobin : roundRobin := ⟨0⟩

/-- Go method roundRobin.Endpoint: fetch the current endpoints; propagate
an endpointer error; return ErrNoEndpoints on an empty slice; otherwise
old := atomic.AddUint64(&c, 1) - 1 and select index old mod len, in
uint64 arithmetic (modelled with explicit mod 2^64). -/
def roundRobinEndpoint {Op E : Type} (reply : List Op × Option E)
    (rr : roundRobin) : LBResult Op E × roundRobin :=
  match reply with
  | (_, some e) => (.endpointerError e, rr)
  | (endpoints, none) =>
    if h : endpoints.length ≤ 0 then (.errNoEndpoints, rr)
    else
      let c := (rr.c + 1) % uint64Mod
      let old := (c + (uint64Mod - 1)) % uint64Mod
      (.endpoint (endpoints.get
        ⟨old % endpoints.length, Nat.mod_lt _ (Nat.lt_of_not_le h)⟩), ⟨c⟩)

/-- k consecutive roundRobin.Endpoint calls against a fixed reply:
the list of results and the final counter state. -/
def roundRobinCalls {Op E : Type} (reply : List Op × Option E) :
    roundRobin → Nat → List (LBResult Op E) × roundRobin
  | rr, 0 => ([], rr)
  | rr, k + 1 =>
    let r := roundRobinEndpoint reply rr
    let rest := roundRobinCalls reply r.2 k
    (r.1 :: rest.1, rest.2)

/-- One step of the call counter (successful selection path). -/
def rrStep (c : Nat) : Nat := (c + 1) % uint64Mod

/-! ### Retry executor (Go package lb, fixed-attempt-count variant)

The retry implementation itself is not among the source files (only its
tests and its callers are), so it is modelled from the spec. -/

/-- Go struct RetryError: terminal error plus per-attempt history. -/
structure RetryError (E : Type) where
  final : E
  attempts : List E
  deriving DecidableEq, Repr

/-- Outcome of one invocation of the retrying operation: a response, the
deadline's own error surfaced as-is (not wrapped), or a RetryError after
exhausting the attempt budget. -/
inductive RetryOutcome (Res E : Type) where
  | success (r : Res)
  | deadline
  | exhausted (re : RetryError E)
  deriving DecidableEq, Repr

/-- Cumulative duration of the first n attempts (attempts are 1-based;
the first component of attempts i is the duration of attempt i). -/
def cumDur {Res E : Type} (attempts : Nat → Nat × Except E Res) : Nat → Nat
  | 0 => 0
  | n + 1 => cumDur attempts n + (attempts (n + 1)).1

/-- Modelled from the spec: the retry loop body of the Retry executor
(fixed-attempt-count variant), whose implementation is missing from the
source tree.  A single deadline is derived from the timeout and shared by
all attempts.  Attempt i takes (attempts i).1 time units and yields
(attempts i).2; per the spec the shared deadline aborts an in-flight
attempt as soon as it expires, so an attempt whose completion time reaches
the timeout stops the loop with the deadline's own error, unwrapped.  A
completed successful attempt returns its response; a completed failed
attempt is recorded and the loop continues while the attempt index is
below max, otherwise it stops with a RetryError carrying the history. -/
def retryLoop {Res E : Type} (timeout : Nat)
    (attempts : Nat → Nat × Except E Res) (max i t : Nat) (acc : List E) :
    RetryOutcome Res E :=
  let d := (attempts i).1
  if timeout ≤ t + d then .deadline
  else
    match (attempts i).2 with
    | .ok res => .success res
    | .error e =>
      if i < max then
        retryLoop timeout attempts max (i + 1) (t + d) (acc ++ [e])
      else .exhausted ⟨e, acc ++ [e]⟩
  termination_by max + 1 - i
  decreasing_by omega

/-- Modelled from the spec: Go function lb.Retry(max, timeout, balancer)
as a whole invocation — run the retry loop from attempt 1 at elapsed time
0 with an empty history.  Balancer failures (including ErrNoEndpoints)
are ordinary per-attempt errors, folded into the attempts function. -/
def retry {Res E : Type} (timeout max : Nat)
    (attempts : Nat → Nat × Except E Res) : RetryOutcome Res E :=
  retryLoop timeout attempts max 1 0 []

/-! ### Basic facts about the association-list model of the Go map -/

@[simp]
theorem mget_nil {β : Type} (k : String) :
    mget ([] : List (String × β)) k = none := rfl

@[simp]
theorem mget_cons {β : Type} (p : String × β) (m : List (String × β))
    (k : String) : mget (p :: m) k = if p.1 = k then some p.2 else mget m k := rfl

@[simp]
theorem merase_nil {β : Type} (k : String) :
    merase ([] : List (String × β)) k = [] := rfl

@[simp]
theorem merase_cons {β : Type} (p : String × β) (m : List (String × β))
    (k : String) :
    merase (p :: m) k = if p.1 = k then merase m k else p :: merase m k := rfl

theorem mget_eq_none_iff {β : Type} {m : List (String × β)} {k : String} :
    mget m k = none ↔ ∀ p ∈ m, p.1 ≠ k := by
  induction m with
  | nil => simp
  | cons p m ih =>
    by_cases h : p.1 = k <;> simp [h, ih]

theorem merase_of_forall_ne {β : Type} {m : List (String × β)} {k : String}
    (h : ∀ p ∈ m, p.1 ≠ k) : merase m k = m := by
  induction m with
  | nil => rfl
  | cons p m ih =>
    have hp : ¬ p.1 = k := h p (by simp)
    rw [merase_cons, if_neg hp, ih (fun q hq => h q (by simp [hq]))]

theorem mget_merase_of_ne {β : Type} (m : List (String × β)) {k k2 : String}
    (h : k2 ≠ k) : mget (merase m k) k2 = mget m k2 := by
  induction m with
  | nil => rfl
  | cons p m ih =>
    by_cases hp : p.1 = k
    · rw [merase_cons, if_pos hp, ih, mget_cons,
        if_neg (fun he : p.1 = k2 => h (he ▸ hp ▸ rfl))]
    · rw [merase_cons, if_neg hp, mget_cons, mget_cons]
      by_cases hp2 : p.1 = k2
      · rw [if_pos hp2, if_pos hp2]
      · rw [if_neg hp2, if_neg hp2, ih]

theorem mget_merase_self {β : Type} (m : List (String × β)) (k : String) :
    mget (merase m k) k = none := by
  induction m with
  | nil => rfl
  | cons p m ih =>
    by_cases hp : p.1 = k <;> simp [hp, ih]

theorem merase_eq_filter {β : Type} (m : List (String × β)) (k : String) :
    merase m k = m.filter (fun p => decide (¬ p.1 = k)) := by
  induction m with
  | nil => rfl
  | cons p m ih =>
    by_cases hp : p.1 = k <;> simp [hp, List.filter_cons, ih]

theorem mget_append {β : Type} (m1 m2 : List (String × β)) (k : String) :
    mget (m1 ++ m2) k =
      match mget m1 k with
      | some v => some v
      | none => mget m2 k := by
  induction m1 with
  | nil => rfl
  | cons p m ih =>
    by_cases hp : p.1 = k <;> simp [hp, ih]

theorem mget_minsert_of_ne {β : Type} (m : List (String × β)) {k j : String}
    (v : β) (h : j ≠ k) : mget (minsert m k v) j = mget m j := by
  rw [minsert, mget_append, mget_merase_of_ne m h]
  cases hm : mget m j with
  | some w => rfl
  | none => simp [Ne.symm h]

theorem minsert_of_mget_none {β : Type} {m : List (String × β)} {k : String}
    (v : β) (h : mget m k = none) : minsert m k v = m ++ [(k, v)] := by
  rw [minsert, merase_of_forall_ne (mget_eq_none_iff.mp h)]

theorem mget_keyed_filterMap {β : Type} (h : String → Option β) :
    ∀ (is : List String), is.Nodup → ∀ k,
      mget (is.filterMap (fun i => (h i).map (fun e => (i, e)))) k
        = if k ∈ is then h k else none := by
  intro is
  induction is with
  | nil => simp
  | cons i rest ih =>
    intro hnd k
    have hndr : rest.Nodup := hnd.of_cons
    have hni : i ∉ rest := (List.nodup_cons.mp hnd).1
    cases hhi : h i with
    | some e =>
      by_cases hk : i = k
      · subst hk
        simp [hhi, List.filterMap_cons, ih hndr, hni]
      · rw [List.filterMap_cons]
        simp only [hhi, Option.map_some']
        rw [mget_cons, if_neg hk, ih hndr k]
        have hki : ¬ k = i := fun he => hk he.symm
        simp [List.mem_cons, hki]
    | none =>
      by_cases hk : i = k
      · subst hk
        rw [List.filterMap_cons]
        simp only [hhi, Option.map_none']
        rw [ih hndr i, if_neg hni]
        simp [hhi]
      · rw [List.filterMap_cons]
        simp only [hhi, Option.map_none']
        rw [ih hndr k]
        have hki : ¬ k = i := fun he => hk he.symm
        simp [List.mem_cons, hki]

theorem keys_keyed_filterMap {β : Type} (h : String → Option β)
    (is : List String) :
    (is.filterMap (fun i => (h i).map (fun e => (i, e)))).map (fun p => p.1)
      = is.filter (fun i => (h i).isSome) := by
  induction is with
  | nil => rfl
  | cons i rest ih =>
    cases hhi : h i <;>
      simp [List.filterMap_cons, hhi, List.filter_cons, ih]

theorem length_filterMap_eq_length_filter {α β : Type} (f : α → Option β)
    (l : List α) :
    (l.filterMap f).length = (l.filter (fun a => (f a).isSome)).length := by
  induction l with
  | nil => rfl
  | cons a l ih =>
    cases hfa : f a <;> simp [List.filterMap_cons, hfa, List.filter_cons, ih]

/-! ### Characterization of the updateCache recomputation -/

/-- The entry the recomputation associates with an instance: the carried
over old entry on a cache hit, otherwise whatever the factory produces
(none on a per-instance factory failure). -/
def entryFor {Op : Type} (factory : Factory Op)
    (oldC : List (String × endpointCloser Op)) (i : String) :
    Option (endpointCloser Op) :=
  match mget oldC i with
  | some sc => some sc
  | none => (factory i).map (fun oc => ⟨oc.1, oc.2⟩)

theorem entryFor_of_hit {Op : Type} (factory : Factory Op)
    {oldC : List (String × endpointCloser Op)} {i : String}
    {sc : endpointCloser Op} (h : mget oldC i = some sc) :
    entryFor factory oldC i = some sc := by
  rw [entryFor, h]

theorem entryFor_of_miss {Op : Type} (factory : Factory Op)
    {oldC : List (String × endpointCloser Op)} {i : String}
    (h : mget oldC i = none) :
    entryFor factory oldC i = (factory i).map (fun oc => ⟨oc.1, oc.2⟩) := by
  rw [entryFor, h]

theorem entryFor_merase_of_ne {Op : Type} (factory : Factory Op)
    (oldC : List (String × endpointCloser Op)) {i j : String} (h : j ≠ i) :
    entryFor factory (merase oldC i) j = entryFor factory oldC j := by
  rw [entryFor, entryFor, mget_merase_of_ne oldC h]

/-- Unfolding equations of the buildCache loop, one per branch. -/
theorem buildCache_nil {Op : Type} (factory : Factory Op)
    (newC oldC : List (String × endpointCloser Op)) :
    buildCache factory [] newC oldC = (newC, oldC, []) := rfl

theorem buildCache_cons_hit {Op : Type} (factory : Factory Op)
    {i : String} (rest : List String)
    (newC : List (String × endpointCloser Op))
    {oldC : List (String × endpointCloser Op)} {sc : endpointCloser Op}
    (hold : mget oldC i = some sc) :
    buildCache factory (i :: rest) newC oldC
      = buildCache factory rest (minsert newC i sc) (merase oldC i) := by
  simp [buildCache, hold]

theorem buildCache_cons_create {Op : Type} (factory : Factory Op)
    {i : String} (rest : List String)
    (newC : List (String × endpointCloser Op))
    {oldC : List (String × endpointCloser Op)} {oc : Op × Option Nat}
    (hold : mget oldC i = none) (hfac : factory i = some oc) :
    buildCache factory (i :: rest) newC oldC
      = ((buildCache factory rest (minsert newC i ⟨oc.1, oc.2⟩) oldC).1,
         (buildCache factory rest (minsert newC i ⟨oc.1, oc.2⟩) oldC).2.1,
         i :: (buildCache factory rest (minsert newC i ⟨oc.1, oc.2⟩) oldC).2.2) := by
  cases oc
  simp [buildCache, hold, hfac]

theorem buildCache_cons_skip {Op : Type} (factory : Factory Op)
    {i : String} (rest : List String)
    (newC : List (String × endpointCloser Op))
    {oldC : List (String × endpointCloser Op)}
    (hold : mget oldC i = none) (hfac : factory i = none) :
    buildCache factory (i :: rest) newC oldC
      = ((buildCache factory rest newC oldC).1,
         (buildCache factory rest newC oldC).2.1,
         i :: (buildCache factory rest newC oldC).2.2) := by
  simp [buildCache, hold, hfac]

/-- The new map built by the loop: the accumulator (when its keys are
disjoint from the duplicate-free instance list) extended with the entry
of each surviving instance, in list order. -/
theorem buildCache_fst {Op : Type} (factory : Factory Op) :
    ∀ (is : List String) (newC oldC : List (String × endpointCloser Op)),
      is.Nodup → (∀ i ∈ is, mget newC i = none) →
      (buildCache factory is newC oldC).1
        = newC ++ is.filterMap
            (fun i => (entryFor factory oldC i).map (fun e => (i, e))) := by
  intro is
  induction is with
  | nil => intro newC oldC _ _; simp [buildCache_nil]
  | cons i rest ih =>
    intro newC oldC hnd hdisj
    have hndr : rest.Nodup := hnd.of_cons
    have hni : i ∉ rest := (List.nodup_cons.mp hnd).1
    have hdi : mget newC i = none := hdisj i (by simp)
    cases hold : mget oldC i with
    | some sc =>
      have hdisj2 : ∀ j ∈ rest, mget (minsert newC i sc) j = none := by
        intro j hj
        rw [mget_minsert_of_ne newC sc (fun (he : j = i) => hni (he ▸ hj))]
        exact hdisj j (by simp [hj])
      rw [buildCache_cons_hit factory rest newC hold,
        ih (minsert newC i sc) (merase oldC i) hndr hdisj2,
        minsert_of_mget_none sc hdi, List.append_assoc]
      congr 1
      rw [List.filterMap_cons]
      simp only [entryFor_of_hit factory hold, Option.map_some']
      rw [List.singleton_append]
      congr 1
      exact List.filterMap_congr (fun j hj => by
        rw [entryFor_merase_of_ne factory oldC (fun (he : j = i) => hni (he ▸ hj))])
    | none =>
      cases hfac : factory i with
      | some oc =>
        have hdisj2 : ∀ j ∈ rest, mget (minsert newC i ⟨oc.1, oc.2⟩) j = none := by
          intro j hj
          rw [mget_minsert_of_ne newC _ (fun (he : j = i) => hni (he ▸ hj))]
          exact hdisj j (by simp [hj])
        rw [buildCache_cons_create factory rest newC hold hfac,
          ih (minsert newC i ⟨oc.1, oc.2⟩) oldC hndr hdisj2,
          minsert_of_mget_none _ hdi, List.append_assoc]
        congr 1
        rw [List.filterMap_cons]
        simp only [entryFor_of_miss factory hold, hfac, Option.map_some']
        rw [List.singleton_append]
      | none =>
        rw [buildCache_cons_skip factory rest newC hold hfac,
          ih newC oldC hndr (fun j hj => hdisj j (by simp [hj]))]
        congr 1
        rw [List.filterMap_cons]
        simp only [entryFor_of_miss factory hold, hfac, Option.map_none']

/-- The leftover of the old map after the loop: exactly the bindings
whose key is not among the (duplicate-free) instances, in map order. -/
theorem buildCache_rem {Op : Type} (factory : Factory Op) :
    ∀ (is : List String) (newC oldC : List (String × endpointCloser Op)),
      is.Nodup →
      (buildCache factory is newC oldC).2.1
        = oldC.filter (fun p => decide (p.1 ∉ is)) := by
  intro is
  induction is with
  | nil =>
    intro newC oldC _
    simp [buildCache_nil]
  | cons i rest ih =>
    intro newC oldC hnd
    have hndr : rest.Nodup := hnd.of_cons
    cases hold : mget oldC i with
    | some sc =>
      rw [buildCache_cons_hit factory rest newC hold,
        ih (minsert newC i sc) (merase oldC i) hndr,
        merase_eq_filter, List.filter_filter]
      exact List.filter_congr (fun p _ => by
        by_cases hpi : p.1 = i
        · simp [hpi]
        · by_cases hpr : p.1 ∈ rest <;> simp [hpi, hpr])
    | none =>
      have holdall : ∀ p ∈ oldC, p.1 ≠ i := mget_eq_none_iff.mp hold
      have hrest : oldC.filter (fun p => decide (p.1 ∉ rest))
          = oldC.filter (fun p => decide (p.1 ∉ i :: rest)) :=
        List.filter_congr (fun p hp => by
          have hpi : ¬ p.1 = i := holdall p hp
          by_cases hpr : p.1 ∈ rest <;> simp [hpi, hpr])
      cases hfac : factory i with
      | some oc =>
        rw [buildCache_cons_create factory rest newC hold hfac]
        show (buildCache factory rest (minsert newC i ⟨oc.1, oc.2⟩) oldC).2.1 = _
        rw [ih (minsert newC i ⟨oc.1, oc.2⟩) oldC hndr, hrest]
      | none =>
        rw [buildCache_cons_skip factory rest newC hold hfac]
        show (buildCache factory rest newC oldC).2.1 = _
        rw [ih newC oldC hndr, hrest]

/-- The instances the factory was invoked on during the loop: exactly the
cache misses among the (duplicate-free) instances, in list order. -/
theorem buildCache_calls {Op : Type} (factory : Factory Op) :
    ∀ (is : List String) (newC oldC : List (String × endpointCloser Op)),
      is.Nodup →
      (buildCache factory is newC oldC).2.2
        = is.filter (fun i => (mget oldC i).isNone) := by
  intro is
  induction is with
  | nil =>
    intro newC oldC _
    simp [buildCache_nil]
  | cons i rest ih =>
    intro newC oldC hnd
    have hndr : rest.Nodup := hnd.of_cons
    have hni : i ∉ rest := (List.nodup_cons.mp hnd).1
    cases hold : mget oldC i with
    | some sc =>
      rw [buildCache_cons_hit factory rest newC hold,
        ih (minsert newC i sc) (merase oldC i) hndr, List.filter_cons]
      simp only [hold, Option.isSome_some]
      rw [if_neg (by simp)]
      exact List.filter_congr (fun j hj => by
        rw [mget_merase_of_ne oldC (fun (he : j = i) => hni (he ▸ hj))])
    | none =>
      cases hfac : factory i with
      | some oc =>
        rw [buildCache_cons_create factory rest newC hold hfac]
        show i :: (buildCache factory rest (minsert newC i ⟨oc.1, oc.2⟩) oldC).2.2 = _
        rw [ih (minsert newC i ⟨oc.1, oc.2⟩) oldC hndr, List.filter_cons]
        simp [hold]
      | none =>
        rw [buildCache_cons_skip factory rest newC hold hfac]
        show i :: (buildCache factory rest newC oldC).2.2 = _
        rw [ih newC oldC hndr, List.filter_cons]
        simp [hold]

/-! ### Characterization of updateCache, update and Endpoints -/

/-- The entry map a happy-path update derives from an old map and an
instance list: the entry of each surviving instance, keyed, in order. -/
def newEntries {Op : Type} (factory : Factory Op)
    (oldC : List (String × endpointCloser Op)) (is : List String) :
    List (String × endpointCloser Op) :=
  is.filterMap (fun i => (entryFor factory oldC i).map (fun e => (i, e)))

theorem updateCache_eq {Op E : Type} (factory : Factory Op)
    (c : endpointCache Op E) (instances : List String) :
    updateCache factory c instances
      = ⟨{ c with
            cache := (buildCache factory
              (List.insertionSort (· ≤ ·) instances) [] c.cache).1,
            endpoints := (List.insertionSort (· ≤ ·) instances).filterMap
              (fun i => (mget (buildCache factory
                (List.insertionSort (· ≤ ·) instances) [] c.cache).1 i).map
                  (fun sc => sc.endpoint)) },
         (buildCache factory (List.insertionSort (· ≤ ·) instances) []
           c.cache).2.1.filterMap (fun p => p.2.closer),
         List.insertionSort (· ≤ ·) instances,
         (buildCache factory (List.insertionSort (· ≤ ·) instances) []
           c.cache).2.2⟩ := rfl

theorem nodup_sorted {instances : List String} (hnd : instances.Nodup) :
    (List.insertionSort (· ≤ ·) instances).Nodup :=
  (List.perm_insertionSort _ instances).nodup_iff.mpr hnd

theorem updateCache_state_cache {Op E : Type} (factory : Factory Op)
    (c : endpointCache Op E) {instances : List String}
    (hnd : instances.Nodup) :
    (updateCache factory c instances).state.cache
      = newEntries factory c.cache (List.insertionSort (· ≤ ·) instances) := by
  rw [updateCache_eq]
  exact buildCache_fst factory _ [] c.cache (nodup_sorted hnd)
    (fun i _ => rfl)

theorem mget_newEntries {Op : Type} (factory : Factory Op)
    (oldC : List (String × endpointCloser Op)) {is : List String}
    (hnd : is.Nodup) (k : String) :
    mget (newEntries factory oldC is) k
      = if k ∈ is then entryFor factory oldC k else none :=
  mget_keyed_filterMap (entryFor factory oldC) is hnd k

theorem updateCache_state_endpoints {Op E : Type} (factory : Factory Op)
    (c : endpointCache Op E) {instances : List String}
    (hnd : instances.Nodup) :
    (updateCache factory c instances).state.endpoints
      = (newEntries factory c.cache
          (List.insertionSort (· ≤ ·) instances)).map
            (fun p => p.2.endpoint) := by
  have hnds := nodup_sorted hnd
  rw [updateCache_eq]
  show (List.insertionSort (· ≤ ·) instances).filterMap _ = _
  rw [buildCache_fst factory _ [] c.cache hnds (fun i _ => rfl),
    List.nil_append]
  rw [show ((List.insertionSort (· ≤ ·) instances).filterMap
      (fun i => (entryFor factory c.cache i).map (fun e => (i, e))))
      = newEntries factory c.cache (List.insertionSort (· ≤ ·) instances)
      from rfl]
  rw [newEntries, List.map_filterMap]
  exact List.filterMap_congr (fun i hi => by
    rw [mget_keyed_filterMap (entryFor factory c.cache) _ hnds i, if_pos hi]
    cases entryFor factory c.cache i <;> rfl)

theorem updateCache_closed {Op E : Type} (factory : Factory Op)
    (c : endpointCache Op E) {instances : List String}
    (hnd : instances.Nodup) :
    (updateCache factory c instances).closed
      = (c.cache.filter (fun p => decide (p.1 ∉ instances))).filterMap
          (fun p => p.2.closer) := by
  rw [updateCache_eq]
  show ((buildCache factory _ [] c.cache).2.1).filterMap _ = _
  rw [buildCache_rem factory _ [] c.cache (nodup_sorted hnd)]
  congr 1
  exact List.filter_congr (fun p _ => by
    by_cases hp : p.1 ∈ instances
    · simp [hp, ((List.perm_insertionSort _ instances).mem_iff).mpr hp]
    · simp [hp, fun hs => hp (((List.perm_insertionSort _ instances).mem_iff).mp hs)])

theorem updateCache_factoryCalls {Op E : Type} (factory : Factory Op)
    (c : endpointCache Op E) {instances : List String}
    (hnd : instances.Nodup) :
    (updateCache factory c instances).factoryCalls
      = (List.insertionSort (· ≤ ·) instances).filter
          (fun i => (mget c.cache i).isNone) := by
  rw [updateCache_eq]
  exact buildCache_calls factory _ [] c.cache (nodup_sorted hnd)

theorem updateCache_instancesAfter {Op E : Type} (factory : Factory Op)
    (c : endpointCache Op E) (instances : List String) :
    (updateCache factory c instances).instancesAfter
      = List.insertionSort (· ≤ ·) instances := rfl

theorem updateCache_state_err {Op E : Type} (factory : Factory Op)
    (c : endpointCache Op E) (instances : List String) :
    (updateCache factory c instances).state.err = c.err := rfl

theorem updateCache_state_options {Op E : Type} (factory : Factory Op)
    (c : endpointCache Op E) (instances : List String) :
    (updateCache factory c instances).state.invalidateOnError
        = c.invalidateOnError
      ∧ (updateCache factory c instances).state.invalidateTimeout
        = c.invalidateTimeout
      ∧ (updateCache factory c instances).state.invalidateDeadline
        = c.invalidateDeadline :=
  ⟨rfl, rfl, rfl⟩

/-- Unfolding a happy-path Update. -/
theorem update_happy {Op E : Type} (factory : Factory Op)
    (c : endpointCache Op E) (now : Nat) (instances : List String) :
    update factory c now ⟨instances, none⟩
      = ⟨{ (updateCache factory c instances).state with err := none },
         (updateCache factory c instances).closed,
         (updateCache factory c instances).instancesAfter,
         (updateCache factory c instances).factoryCalls⟩ := rfl

/-- A sad-path Update when invalidation is on and an error is already
recorded: the state is returned untouched. -/
theorem update_frozen {Op E : Type} (factory : Factory Op)
    {c : endpointCache Op E} (now : Nat) {instances : List String} {e : E}
    (hinv : c.invalidateOnError = true) (herr : c.err.isSome) :
    update factory c now ⟨instances, some e⟩ = ⟨c, [], instances, []⟩ := by
  rw [update]
  simp [hinv, herr]

/-- A sad-path Update when invalidation is on and no error is recorded:
the error and the deadline are set, nothing else changes. -/
theorem update_record_error {Op E : Type} (factory : Factory Op)
    {c : endpointCache Op E} (now : Nat) {instances : List String} {e : E}
    (hinv : c.invalidateOnError = true) (herr : c.err = none) :
    update factory c now ⟨instances, some e⟩
      = ⟨{ c with err := some e, invalidateDeadline := now + c.invalidateTimeout },
         [], instances, []⟩ := by
  rw [update]
  simp [hinv, herr]

/-- The fast path of Endpoints: with no recorded error the snapshot is
returned with a nil error and the state is untouched. -/
theorem endpointsCall_fast {Op E : Type} (factory : Factory Op)
    {c : endpointCache Op E} (now : Nat) (herr : c.err = none) :
    endpointsCall factory c now = ⟨(c.endpoints, none), c, []⟩ := by
  rw [endpointsCall]
  simp [herr]

/-- The fast path of Endpoints under a recorded error, while now is still
before the invalidate deadline. -/
theorem endpointsCall_stale {Op E : Type} (factory : Factory Op)
    {c : endpointCache Op E} {now : Nat} (hlt : now < c.invalidateDeadline) :
    endpointsCall factory c now = ⟨(c.endpoints, none), c, []⟩ := by
  rw [endpointsCall]
  simp [hlt]

/-- The slow path of Endpoints: recorded error and deadline reached. -/
theorem endpointsCall_slow {Op E : Type} (factory : Factory Op)
    {c : endpointCache Op E} {now : Nat} {e : E} (herr : c.err = some e)
    (hge : c.invalidateDeadline ≤ now) :
    endpointsCall factory c now
      = ⟨([], some e),
         (updateCache factory c []).state, (updateCache factory c []).closed⟩ := by
  rw [endpointsCall]
  simp [herr, Nat.not_lt.mpr hge]

/-- Events that carry an error freeze a state that is already in the error
state (with invalidation on): the consumer task leaves it untouched. -/
theorem applyEvents_frozen {Op E : Type} (factory : Factory Op) :
    ∀ (evs : List (Nat × Event E)) (c : endpointCache Op E),
      c.invalidateOnError = true → c.err.isSome →
      (∀ p ∈ evs, (p.2).err.isSome) →
      applyEvents factory evs c = c := by
  intro evs
  induction evs with
  | nil => intro c _ _ _; rfl
  | cons te rest ih =>
    intro c hinv herr hall
    obtain ⟨t, ev⟩ := te
    have he : ev.err.isSome := hall (t, ev) (by simp)
    obtain ⟨is2, err2⟩ := ev
    cases hte : err2 with
    | none => rw [hte] at he; cases he
    | some e =>
      subst hte
      rw [applyEvents, List.foldl_cons]
      rw [show (update factory c t ⟨is2, some e⟩).state = c from
        congrArg UpdateOut.state (update_frozen factory t hinv herr)]
      exact ih c hinv herr (fun p hp => hall p (by simp [hp]))

/-- Projections of a happy-path Update. -/
theorem update_happy_state_cache {Op E : Type} (factory : Factory Op)
    (c : endpointCache Op E) (now : Nat) (instances : List String) :
    (update factory c now ⟨instances, none⟩).state.cache
      = (updateCache factory c instances).state.cache := rfl

theorem update_happy_state_endpoints {Op E : Type} (factory : Factory Op)
    (c : endpointCache Op E) (now : Nat) (instances : List String) :
    (update factory c now ⟨instances, none⟩).state.endpoints
      = (updateCache factory c instances).state.endpoints := rfl

theorem update_happy_state_err {Op E : Type} (factory : Factory Op)
    (c : endpointCache Op E) (now : Nat) (instances : List String) :
    (update factory c now ⟨instances, none⟩).state.err = none := rfl

theorem update_happy_closed {Op E : Type} (factory : Factory Op)
    (c : endpointCache Op E) (now : Nat) (instances : List String) :
    (update factory c now ⟨instances, none⟩).closed
      = (updateCache factory c instances).closed := rfl

theorem update_happy_factoryCalls {Op E : Type} (factory : Factory Op)
    (c : endpointCache Op E) (now : Nat) (instances : List String) :
    (update factory c now ⟨instances, none⟩).factoryCalls
      = (updateCache factory c instances).factoryCalls := rfl

/-- A sad-path Update with invalidation disabled leaves everything as is. -/
theorem update_disabled {Op E : Type} (factory : Factory Op)
    {c : endpointCache Op E} (now : Nat) {instances : List String} {e : E}
    (hinv : c.invalidateOnError = false) :
    update factory c now ⟨instances, some e⟩ = ⟨c, [], instances, []⟩ := by
  rw [update]
  simp [hinv]

/-! ### Concrete material used by the witnesses -/

/-- A concrete factory over Op = Nat: fails on the instance "bad", else
yields an endpoint and a closer derived from the instance length. -/
def exFactory : Factory Nat :=
  fun s => if s = "bad" then none else some (s.length, some (s.length + 100))

/-- A concrete cache state holding two entries. -/
def exState : endpointCache Nat Nat :=
  { invalidateOnError := true, invalidateTimeout := 10,
    cache := [("a", ⟨1, some 101⟩), ("bb", ⟨2, some 102⟩)],
    err := none, endpoints := [1, 2], invalidateDeadline := 0 }

/-- A concrete empty cache state. -/
def exEmpty : endpointCache Nat Nat :=
  { invalidateOnError := true, invalidateTimeout := 10, cache := [],
    err := none, endpoints := [], invalidateDeadline := 0 }

/-! ### The claims -/

/-- C6: an Update whose event carries an error leaves the entry map and
the snapshot unchanged, and when an error is already recorded it leaves
the whole state (in particular lastError and the invalidate deadline)
unchanged, so the first error and its deadline stick until an error-free
event clears them. -/
theorem C6_error_update_frame {Op E : Type} (factory : Factory Op)
    (c : endpointCache Op E) (now : Nat) (instances : List String) (e : E) :
    (update factory c now ⟨instances, some e⟩).state.cache = c.cache
    ∧ (update factory c now ⟨instances, some e⟩).state.endpoints = c.endpoints
    ∧ (c.err.isSome → (update factory c now ⟨instances, some e⟩).state = c) := by
  by_cases hinv : c.invalidateOnError = true
  · cases herr : c.err with
    | some e0 =>
      rw [update_frozen factory now hinv (by rw [herr]; rfl)]
      exact ⟨rfl, rfl, fun _ => rfl⟩
    | none =>
      rw [update_record_error factory now hinv herr]
      refine ⟨rfl, rfl, fun hs => ?_⟩
      simp at hs
  · rw [update_disabled factory now (Bool.not_eq_true _ ▸ hinv)]
    exact ⟨rfl, rfl, fun _ => rfl⟩

/-- Witness for C6 at a concrete input. -/
theorem C6_witness :
    (update exFactory exState 7 ⟨["a"], some 42⟩).state.cache = exState.cache
    ∧ (update exFactory exState 7 ⟨["a"], some 42⟩).state.endpoints
        = exState.endpoints
    ∧ (exState.err.isSome →
        (update exFactory exState 7 ⟨["a"], some 42⟩).state = exState) :=
  C6_error_update_frame exFactory exState 7 ["a"] 42

/-- C10: every error-free Update sorts the instances slice of the event in
place, so after the call the caller's slice holds the same strings
permuted into lexicographic order. -/
theorem C10_update_sorts_instances_in_place {Op E : Type} (factory : Factory Op)
    (c : endpointCache Op E) (now : Nat) (instances : List String) :
    (update factory c now ⟨instances, none⟩).instancesAfter.Perm instances
    ∧ ((update factory c now ⟨instances, none⟩).instancesAfter).Sorted (· ≤ ·)
    ∧ (update factory c now ⟨instances, none⟩).instancesAfter
        = List.insertionSort (· ≤ ·) instances := by
  exact ⟨List.perm_insertionSort _ instances,
    List.sorted_insertionSort _ instances, rfl⟩

/-- C7: whenever the endpointer yields an empty snapshot (and no error of
its own), both balancers return the distinguished ErrNoEndpoints and no
endpoint; both are total functions of their inputs (no panic, and in this
sequential model no call blocks). -/
theorem C7_empty_pool {Op E : Type} (reply : List Op × Option E)
    (h1 : reply.1 = []) (h2 : reply.2 = none) :
    (∀ intn : Nat → Nat, randomEndpoint reply intn = .errNoEndpoints)
    ∧ (∀ rr : roundRobin, roundRobinEndpoint reply rr = (.errNoEndpoints, rr)) := by
  obtain ⟨eps, er⟩ := reply
  obtain rfl : eps = [] := h1
  obtain rfl : er = none := h2
  exact ⟨fun _ => rfl, fun _ => rfl⟩

/-- Witness for C7 at a concrete input. -/
theorem C7_witness :
    ((([] : List Nat), (none : Option Nat)).1 = [])
    ∧ ((([] : List Nat), (none : Option Nat)).2 = none)
    ∧ ((∀ intn : Nat → Nat,
          randomEndpoint (([] : List Nat), (none : Option Nat)) intn
            = .errNoEndpoints)
       ∧ (∀ rr : roundRobin,
          roundRobinEndpoint (([] : List Nat), (none : Option Nat)) rr
            = (.errNoEndpoints, rr))) :=
  ⟨rfl, rfl, C7_empty_pool ([], none) rfl rfl⟩

/-- C2: an error-free Update yields a snapshot in lexicographic instance
order and is insensitive to the arrival order of the instance set: a
permuted instance list produces the identical state, the keys of the new
entry map are sorted, and the snapshot is exactly the entries of the new
map, in map order. -/
theorem C2_deterministic_sorted_snapshot {Op E : Type} (factory : Factory Op)
    (c : endpointCache Op E) (now1 now2 : Nat) (l1 l2 : List String)
    (hperm : l1.Perm l2) (hnd : l1.Nodup) :
    (update factory c now1 ⟨l1, none⟩).state
        = (update factory c now2 ⟨l2, none⟩).state
    ∧ ((update factory c now1 ⟨l1, none⟩).state.cache.map
        (fun p => p.1)).Sorted (· ≤ ·)
    ∧ (update factory c now1 ⟨l1, none⟩).state.endpoints
        = (update factory c now1 ⟨l1, none⟩).state.cache.map
            (fun p => p.2.endpoint) := by
  have hsort : List.insertionSort (· ≤ ·) l1 = List.insertionSort (· ≤ ·) l2 :=
    List.eq_of_perm_of_sorted
      ((List.perm_insertionSort _ l1).trans
        (hperm.trans (List.perm_insertionSort _ l2).symm))
      (List.sorted_insertionSort _ l1) (List.sorted_insertionSort _ l2)
  have hcaches : updateCache factory c l1 = updateCache factory c l2 := by
    rw [updateCache_eq factory c l1, updateCache_eq factory c l2, hsort]
  refine ⟨?_, ?_, ?_⟩
  · rw [update_happy factory c now1 l1, update_happy factory c now2 l2, hcaches]
  · rw [update_happy_state_cache, updateCache_state_cache factory c hnd,
      newEntries, keys_keyed_filterMap]
    exact List.Pairwise.filter _ (List.sorted_insertionSort _ l1)
  · rw [update_happy_state_endpoints, update_happy_state_cache,
      updateCache_state_endpoints factory c hnd,
      updateCache_state_cache factory c hnd]

/-- Witness for C2 at a concrete input. -/
theorem C2_witness :
    (["bb", "a"].Perm ["a", "bb"]) ∧ (["bb", "a"].Nodup)
    ∧ ((update exFactory exEmpty 3 ⟨["bb", "a"], none⟩).state
          = (update exFactory exEmpty 4 ⟨["a", "bb"], none⟩).state
      ∧ ((update exFactory exEmpty 3 ⟨["bb", "a"], none⟩).state.cache.map
          (fun p => p.1)).Sorted (· ≤ ·)
      ∧ (update exFactory exEmpty 3 ⟨["bb", "a"], none⟩).state.endpoints
          = (update exFactory exEmpty 3 ⟨["bb", "a"], none⟩).state.cache.map
              (fun p => p.2.endpoint)) :=
  ⟨by decide, by decide,
    C2_deterministic_sorted_snapshot exFactory exEmpty 3 4 ["bb", "a"]
      ["a", "bb"] (by decide) (by decide)⟩

/-- C3: an instance already present in the entry map survives an
error-free Update that still lists it: the new map carries the very same
entry (the same operation and closer), the factory is not invoked on it,
and the factory is invoked only on instances that were not cached. -/
theorem C3_entry_stability {Op E : Type} (factory : Factory Op)
    (c : endpointCache Op E) (now : Nat) (instances : List String)
    (i : String) (sc : endpointCloser Op)
    (hnd : instances.Nodup) (hmem : i ∈ instances)
    (hcached : mget c.cache i = some sc) :
    mget (update factory c now ⟨instances, none⟩).state.cache i = some sc
    ∧ i ∉ (update factory c now ⟨instances, none⟩).factoryCalls
    ∧ ∀ j ∈ (update factory c now ⟨instances, none⟩).factoryCalls,
        mget c.cache j = none := by
  have hnds := nodup_sorted hnd
  have hmems : i ∈ List.insertionSort (· ≤ ·) instances :=
    (List.perm_insertionSort _ instances).mem_iff.mpr hmem
  refine ⟨?_, ?_, ?_⟩
  · rw [update_happy_state_cache, updateCache_state_cache factory c hnd,
      mget_newEntries factory c.cache hnds i, if_pos hmems,
      entryFor_of_hit factory hcached]
  · rw [update_happy_factoryCalls, updateCache_factoryCalls factory c hnd]
    intro hmf
    have := (List.mem_filter.mp hmf).2
    rw [hcached] at this
    simp at this
  · intro j hj
    rw [update_happy_factoryCalls, updateCache_factoryCalls factory c hnd]
      at hj
    have := (List.mem_filter.mp hj).2
    exact Option.isNone_iff_eq_none.mp (by simpa using this)

/-- Witness for C3 at a concrete input. -/
theorem C3_witness :
    (["a", "ccc"].Nodup) ∧ ("a" ∈ ["a", "ccc"])
    ∧ (mget exState.cache "a" = some ⟨1, some 101⟩)
    ∧ (mget (update exFactory exState 6 ⟨["a", "ccc"], none⟩).state.cache "a"
          = some ⟨1, some 101⟩
      ∧ "a" ∉ (update exFactory exState 6 ⟨["a", "ccc"], none⟩).factoryCalls
      ∧ ∀ j ∈ (update exFactory exState 6 ⟨["a", "ccc"], none⟩).factoryCalls,
          mget exState.cache j = none) :=
  ⟨by decide, by decide, by decide,
    C3_entry_stability exFactory exState 6 ["a", "ccc"] "a" ⟨1, some 101⟩
      (by decide) (by decide) (by decide)⟩

/-- C4: an entry whose instance stops appearing in an error-free Update is
released during that Update: with pairwise distinct closers its closer is
closed exactly once, the entry is gone from the new map (so no later
update can close it again), and the closed closers are exactly those of
the dropped entries. -/
theorem C4_release_once {Op E : Type} (factory : Factory Op)
    (c : endpointCache Op E) (now : Nat) (instances : List String)
    (i0 : String) (e0 : endpointCloser Op) (cl : Nat)
    (hnd : instances.Nodup)
    (hmem : (i0, e0) ∈ c.cache) (hgone : i0 ∉ instances)
    (hcl : e0.closer = some cl)
    (hclnd : (c.cache.filterMap (fun p => p.2.closer)).Nodup) :
    ((update factory c now ⟨instances, none⟩).closed.count cl = 1
    ∧ mget (update factory c now ⟨instances, none⟩).state.cache i0 = none)
    ∧ (update factory c now ⟨instances, none⟩).closed
        = (c.cache.filter (fun p => decide (p.1 ∉ instances))).filterMap
            (fun p => p.2.closer) := by
  have hnds := nodup_sorted hnd
  have hclosed : (update factory c now ⟨instances, none⟩).closed
      = (c.cache.filter (fun p => decide (p.1 ∉ instances))).filterMap
          (fun p => p.2.closer) := by
    rw [update_happy_closed, updateCache_closed factory c hnd]
  refine ⟨⟨?_, ?_⟩, hclosed⟩
  · rw [hclosed]
    have hmemcl : cl ∈ (c.cache.filter
        (fun p => decide (p.1 ∉ instances))).filterMap
          (fun p => p.2.closer) :=
      List.mem_filterMap.mpr
        ⟨(i0, e0), List.mem_filter.mpr ⟨hmem, by simpa using hgone⟩, hcl⟩
    have hsub : ((c.cache.filter (fun p => decide (p.1 ∉ instances))).filterMap
        (fun p => p.2.closer)).Sublist
          (c.cache.filterMap (fun p => p.2.closer)) :=
      (List.filter_sublist c.cache).filterMap _
    exact List.count_eq_one_of_mem (hsub.nodup hclnd) hmemcl
  · rw [update_happy_state_cache, updateCache_state_cache factory c hnd,
      mget_newEntries factory c.cache hnds i0, if_neg]
    intro hmems
    exact hgone ((List.perm_insertionSort _ instances).mem_iff.mp hmems)

/-- Witness for C4 at a concrete input. -/
theorem C4_witness :
    (["a"].Nodup) ∧ (("bb", (⟨2, some 102⟩ : endpointCloser Nat)) ∈ exState.cache)
    ∧ ("bb" ∉ ["a"])
    ∧ ((⟨2, some 102⟩ : endpointCloser Nat).closer = some 102)
    ∧ ((exState.cache.filterMap (fun p => p.2.closer)).Nodup)
    ∧ (((update exFactory exState 8 ⟨["a"], none⟩).closed.count 102 = 1
        ∧ mget (update exFactory exState 8 ⟨["a"], none⟩).state.cache "bb" = none)
      ∧ (update exFactory exState 8 ⟨["a"], none⟩).closed
          = (exState.cache.filter (fun p => decide (p.1 ∉ ["a"]))).filterMap
              (fun p => p.2.closer)) :=
  ⟨by decide, by decide, by decide, by decide, by decide,
    C4_release_once exFactory exState 8 ["a"] "bb" ⟨2, some 102⟩ 102
      (by decide) (by decide) (by decide) (by decide) (by decide)⟩

/-- C5: an error-free Update over distinct, uncached instances for which
the factory fails on exactly one and succeeds on the rest yields a
snapshot with exactly one endpoint fewer than the instance count, records
no error, and subsequent Endpoints calls return that snapshot with a nil
error. -/
theorem C5_partial_failure {Op E : Type} (factory : Factory Op)
    (c : endpointCache Op E) (now : Nat) (instances : List String)
    (istar : String)
    (hnd : instances.Nodup)
    (hfresh : ∀ j ∈ instances, mget c.cache j = none)
    (hstar : istar ∈ instances) (hfail : factory istar = none)
    (hsucc : ∀ j ∈ instances, j ≠ istar → (factory j).isSome) :
    (update factory c now ⟨instances, none⟩).state.endpoints.length
        = instances.length - 1
    ∧ (update factory c now ⟨instances, none⟩).state.err = none
    ∧ ∀ t, endpointsCall factory
        (update factory c now ⟨instances, none⟩).state t
          = ⟨((update factory c now ⟨instances, none⟩).state.endpoints, none),
             (update factory c now ⟨instances, none⟩).state, []⟩ := by
  have hnds := nodup_sorted hnd
  have hmemiff : ∀ j, j ∈ List.insertionSort (· ≤ ·) instances ↔ j ∈ instances :=
    fun j => (List.perm_insertionSort _ instances).mem_iff
  refine ⟨?_, update_happy_state_err factory c now instances, fun t =>
    endpointsCall_fast factory t (update_happy_state_err factory c now instances)⟩
  rw [update_happy_state_endpoints, updateCache_state_endpoints factory c hnd,
    List.length_map, newEntries, length_filterMap_eq_length_filter]
  have hfc : (List.insertionSort (· ≤ ·) instances).filter
      (fun i => ((entryFor factory c.cache i).map (fun e => (i, e))).isSome)
        = (List.insertionSort (· ≤ ·) instances).filter (fun i => i != istar) := by
    refine List.filter_congr (fun i hi => ?_)
    have hii : i ∈ instances := (hmemiff i).mp hi
    rw [entryFor_of_miss factory (hfresh i hii)]
    by_cases his : i = istar
    · subst his
      rw [hfail]
      simp
    · have := hsucc i hii his
      cases hfs : factory i with
      | none => rw [hfs] at this; simp at this
      | some oc => simp [hfs, bne_iff_ne, his]
  rw [hfc, ← List.Nodup.erase_eq_filter hnds istar,
    List.length_erase_of_mem ((hmemiff istar).mpr hstar),
    (List.perm_insertionSort _ instances).length_eq]

/-- Witness for C5 at a concrete input. -/
theorem C5_witness :
    (["bb", "bad", "a"].Nodup)
    ∧ (∀ j ∈ ["bb", "bad", "a"], mget exEmpty.cache j = none)
    ∧ ("bad" ∈ ["bb", "bad", "a"])
    ∧ (exFactory "bad" = none)
    ∧ (∀ j ∈ ["bb", "bad", "a"], j ≠ "bad" → (exFactory j).isSome)
    ∧ ((update exFactory exEmpty 2 ⟨["bb", "bad", "a"], none⟩).state.endpoints.length
          = ["bb", "bad", "a"].length - 1
      ∧ (update exFactory exEmpty 2 ⟨["bb", "bad", "a"], none⟩).state.err = none
      ∧ ∀ t, endpointsCall exFactory
          (update exFactory exEmpty 2 ⟨["bb", "bad", "a"], none⟩).state t
            = ⟨((update exFactory exEmpty 2
                  ⟨["bb", "bad", "a"], none⟩).state.endpoints, none),
               (update exFactory exEmpty 2
                 ⟨["bb", "bad", "a"], none⟩).state, []⟩) :=
  ⟨by decide, by decide, by decide, by decide, by decide,
    C5_partial_failure exFactory exEmpty 2 ["bb", "bad", "a"] "bad"
      (by decide) (by decide) (by decide) (by decide) (by decide)⟩

/-- C1: with invalidation enabled and timeout T, once an error event
arrives at time t0 while no error is recorded (followed by any further
error-carrying events), a read strictly before t0+T returns the last good
snapshot with a nil error and leaves the state untouched; a read at or
after t0+T releases all current entries and returns (nil, lastError); and
any error-free Update restores normal operation (error cleared, reads
return the snapshot with a nil error again). -/
theorem C1_invalidation_timing {Op E : Type} (factory : Factory Op)
    (c : endpointCache Op E) (t0 : Nat) (e0 : E) (is0 : List String)
    (rest : List (Nat × Event E)) (st2 : endpointCache Op E) (ta tb : Nat)
    (hinv : c.invalidateOnError = true) (herr : c.err = none)
    (hall : ∀ p ∈ rest, (p.2).err.isSome)
    (hst2 : st2 = applyEvents factory rest
      (update factory c t0 ⟨is0, some e0⟩).state)
    (hta : ta < t0 + c.invalidateTimeout)
    (htb : t0 + c.invalidateTimeout ≤ tb) :
    (endpointsCall factory st2 ta = ⟨(c.endpoints, none), st2, []⟩)
    ∧ ((endpointsCall factory st2 tb).result = ([], some e0)
      ∧ (endpointsCall factory st2 tb).state.cache = []
      ∧ (endpointsCall factory st2 tb).state.endpoints = []
      ∧ (endpointsCall factory st2 tb).closed
          = c.cache.filterMap (fun p => p.2.closer))
    ∧ (∀ (c2 : endpointCache Op E) (now2 : Nat) (is2 : List String),
        (update factory c2 now2 ⟨is2, none⟩).state.err = none
        ∧ ∀ t2, endpointsCall factory
            (update factory c2 now2 ⟨is2, none⟩).state t2
              = ⟨((update factory c2 now2 ⟨is2, none⟩).state.endpoints, none),
                 (update factory c2 now2 ⟨is2, none⟩).state, []⟩) := by
  have hst1 : (update factory c t0 ⟨is0, some e0⟩).state
      = { c with err := some e0, invalidateDeadline := t0 + c.invalidateTimeout } :=
    congrArg UpdateOut.state (update_record_error factory t0 hinv herr)
  have hst2eq : st2
      = { c with err := some e0, invalidateDeadline := t0 + c.invalidateTimeout } := by
    rw [hst2, hst1]
    exact applyEvents_frozen factory rest _ hinv rfl hall
  subst hst2eq
  refine ⟨?_, ?_, ?_⟩
  · exact endpointsCall_stale factory hta
  · rw [endpointsCall_slow factory rfl htb]
    exact ⟨rfl, rfl, rfl, rfl⟩
  · intro c2 now2 is2
    exact ⟨update_happy_state_err factory c2 now2 is2, fun t2 =>
      endpointsCall_fast factory t2
        (update_happy_state_err factory c2 now2 is2)⟩

/-- Witness for C1 at a concrete input. -/
theorem C1_witness :
    (exState.invalidateOnError = true) ∧ (exState.err = none)
    ∧ (∀ p ∈ [((110 : Nat), (⟨[], some 7⟩ : Event Nat))], (p.2).err.isSome)
    ∧ ({ exState with err := some 42, invalidateDeadline := 110 }
        = applyEvents exFactory [((110 : Nat), (⟨[], some 7⟩ : Event Nat))]
            (update exFactory exState 100 ⟨[], some 42⟩).state)
    ∧ (105 < 100 + exState.invalidateTimeout)
    ∧ (100 + exState.invalidateTimeout ≤ 110)
    ∧ ((endpointsCall exFactory
          { exState with err := some 42, invalidateDeadline := 110 } 105
        = ⟨(exState.endpoints, none),
           { exState with err := some 42, invalidateDeadline := 110 }, []⟩)
      ∧ ((endpointsCall exFactory
            { exState with err := some 42, invalidateDeadline := 110 } 110).result
          = ([], some 42)
        ∧ (endpointsCall exFactory
            { exState with err := some 42, invalidateDeadline := 110 } 110).state.cache
          = []
        ∧ (endpointsCall exFactory
            { exState with err := some 42, invalidateDeadline := 110 } 110).state.endpoints
          = []
        ∧ (endpointsCall exFactory
            { exState with err := some 42, invalidateDeadline := 110 } 110).closed
          = exState.cache.filterMap (fun p => p.2.closer))
      ∧ (∀ (c2 : endpointCache Nat Nat) (now2 : Nat) (is2 : List String),
          (update exFactory c2 now2 ⟨is2, none⟩).state.err = none
          ∧ ∀ t2, endpointsCall exFactory
              (update exFactory c2 now2 ⟨is2, none⟩).state t2
                = ⟨((update exFactory c2 now2 ⟨is2, none⟩).state.endpoints, none),
                   (update exFactory c2 now2 ⟨is2, none⟩).state, []⟩)) :=
  ⟨by decide, by decide, by decide, by decide, by decide, by decide,
    C1_invalidation_timing exFactory exState 100 42 []
      [((110 : Nat), (⟨[], some 7⟩ : Event Nat))]
      { exState with err := some 42, invalidateDeadline := 110 } 105 110
      (by decide) (by decide) (by decide) (by decide) (by decide) (by decide)⟩

/-! ### Round-robin call arithmetic -/

theorem uint64Mod_pos : 0 < uint64Mod := Nat.two_pow_pos 64

theorem rrStep_lt (c : Nat) : rrStep c < uint64Mod :=
  Nat.mod_lt _ uint64Mod_pos

/-- The uint64 expression atomic.AddUint64(&c, 1) - 1 recovers the old
counter value while the counter is in range. -/
theorem rr_old_eq {c : Nat} (hc : c < uint64Mod) :
    ((c + 1) % uint64Mod + (uint64Mod - 1)) % uint64Mod = c := by
  rw [Nat.mod_add_mod]
  have h1 : c + 1 + (uint64Mod - 1) = c + uint64Mod := by
    have := uint64Mod_pos
    omega
  rw [h1, Nat.add_mod_right, Nat.mod_eq_of_lt hc]

/-- One roundRobin.Endpoint call on a non-empty fixed pool: selects the
endpoint at index counter mod length and advances the counter by one
(modulo 2^64). -/
theorem roundRobinEndpoint_nonempty {Op E : Type} {eps : List Op}
    (rr : roundRobin) (h : 0 < eps.length) (hc : rr.c < uint64Mod) :
    roundRobinEndpoint (E := E) (FixedEndpointer eps) rr
      = (.endpoint (eps.get ⟨rr.c % eps.length, Nat.mod_lt _ h⟩),
         ⟨rrStep rr.c⟩) := by
  have hne : ¬ eps.length ≤ 0 := Nat.not_le.mpr h
  simp only [roundRobinEndpoint, FixedEndpointer, dif_neg hne]
  simp [rr_old_eq hc, rrStep]

/-- The counter component of one call on a non-empty fixed pool. -/
theorem roundRobinEndpoint_counter {Op E : Type} {eps : List Op}
    (rr : roundRobin) (h : 0 < eps.length) :
    (roundRobinEndpoint (E := E) (FixedEndpointer eps) rr).2
      = ⟨rrStep rr.c⟩ := by
  have hne : ¬ eps.length ≤ 0 := Nat.not_le.mpr h
  simp [roundRobinEndpoint, FixedEndpointer, dif_neg hne, rrStep]

/-- The index sequence of k consecutive roundRobin selections over a pool
of size n, starting from counter value c (counter arithmetic mod 2^64). -/
def rrIndices (n : Nat) : Nat → Nat → List Nat
  | _, 0 => []
  | c, k + 1 => c % n :: rrIndices n (rrStep c) k

/-- k consecutive calls on a non-empty fixed pool produce exactly the
endpoints at the rrIndices positions. -/
theorem roundRobinCalls_indices {Op E : Type} (eps : List Op) (d : Op)
    (h : 0 < eps.length) :
    ∀ (k c0 : Nat), c0 < uint64Mod →
      (roundRobinCalls (E := E) (FixedEndpointer eps) ⟨c0⟩ k).1
        = (rrIndices eps.length c0 k).map
            (fun i => .endpoint (eps.getD i d)) := by
  intro k
  induction k with
  | zero => intro c0 _; rfl
  | succ k ih =>
    intro c0 hc
    rw [roundRobinCalls]
    simp only [roundRobinEndpoint_nonempty ⟨c0⟩ h hc]
    rw [rrIndices, List.map_cons, ih (rrStep c0) (rrStep_lt c0)]
    congr 1
    rw [List.getD_eq_get eps d (Nat.mod_lt _ h)]

/-- The counter after k consecutive calls on a non-empty fixed pool. -/
theorem roundRobinCalls_counter {Op E : Type} (eps : List Op)
    (h : 0 < eps.length) :
    ∀ (k c0 : Nat), (roundRobinCalls (E := E) (FixedEndpointer eps) ⟨c0⟩ k).2
      = ⟨rrStep^[k] c0⟩ := by
  intro k
  induction k with
  | zero => intro c0; rfl
  | succ k ih =>
    intro c0
    rw [roundRobinCalls]
    show (roundRobinCalls (E := E) (FixedEndpointer eps)
      (roundRobinEndpoint (E := E) (FixedEndpointer eps) ⟨c0⟩).2 k).2 = _
    rw [roundRobinEndpoint_counter ⟨c0⟩ h, ih (rrStep c0),
      Function.iterate_succ_apply]

/-- The counter value reached after k calls from construction. -/
theorem rrStep_iterate (k : Nat) : rrStep^[k] 0 = k % uint64Mod := by
  induction k with
  | zero => simp
  | succ k ih =>
    rw [Function.iterate_succ_apply', ih, rrStep, Nat.mod_add_mod]

/-- While the counter window does not cross 2^64, the index sequence is
given by the plain formula (c0 + j) mod n. -/
theorem rrIndices_no_wrap (n : Nat) :
    ∀ (k c0 : Nat), c0 + k ≤ uint64Mod →
      rrIndices n c0 k = (List.range k).map (fun j => (c0 + j) % n) := by
  intro k
  induction k with
  | zero => intro c0 _; rfl
  | succ k ih =>
    intro c0 hk
    rw [rrIndices, List.range_succ_eq_map, List.map_cons, Nat.add_zero]
    congr 1
    cases Nat.eq_zero_or_pos k with
    | inl h0 =>
      subst h0
      rfl
    | inr hkpos =>
      have hlt : c0 + 1 < uint64Mod := by omega
      have hstep : rrStep c0 = c0 + 1 := Nat.mod_eq_of_lt hlt
      rw [hstep, ih (c0 + 1) (by omega), List.map_map]
      exact List.map_congr_left (fun j _ => by
        show (c0 + 1 + j) % n = (c0 + Nat.succ j) % n
        congr 1
        omega)

/-- The indices of a no-wrap window of n consecutive calls visit every
position of a pool of size n exactly once. -/
theorem window_indices_perm {n : Nat} (hn : 0 < n) (c0 : Nat) :
    ((List.range n).map (fun j => (c0 + j) % n)).Perm (List.range n) := by
  have hnd : ((List.range n).map (fun j => (c0 + j) % n)).Nodup := by
    refine List.Nodup.map_on ?_ (List.nodup_range n)
    intro j1 h1 j2 h2 heq
    have hj1 : j1 < n := List.mem_range.mp h1
    have hj2 : j2 < n := List.mem_range.mp h2
    have hmod : j1 ≡ j2 [MOD n] :=
      Nat.ModEq.add_left_cancel' c0 heq
    rw [Nat.ModEq, Nat.mod_eq_of_lt hj1, Nat.mod_eq_of_lt hj2] at hmod
    exact hmod
  have hsub : ((List.range n).map (fun j => (c0 + j) % n)) ⊆ List.range n := by
    intro x hx
    obtain ⟨j, _, rfl⟩ := List.mem_map.mp hx
    exact List.mem_range.mpr (Nat.mod_lt _ hn)
  refine (List.subperm_of_subset hnd hsub).perm_of_length_le ?_
  rw [List.length_map, List.length_range]

/-- C8 (amended): over a fixed non-empty snapshot of length N, each
Endpoint call selects the snapshot entry at index counter mod N and
advances the uint64 counter; the first call after construction yields
index 0; and every N consecutive calls during which the counter does not
wrap around 2^64 visit all N endpoints exactly once, in rotating order.
(As stated in the spec the rotation claim fails at the 2^64 counter
wraparound; see the counterexample.) -/
theorem C8_roundRobin_rotation {Op E : Type} (eps : List Op) (rr : roundRobin)
    (h : 0 < eps.length) (hc : rr.c < uint64Mod)
    (hwrap : rr.c + eps.length ≤ uint64Mod) :
    roundRobinEndpoint (E := E) (FixedEndpointer eps) rr
        = (.endpoint (eps.get ⟨rr.c % eps.length, Nat.mod_lt _ h⟩),
           ⟨rrStep rr.c⟩)
    ∧ roundRobinEndpoint (E := E) (FixedEndpointer eps) newRoundRobin
        = (.endpoint (eps.get ⟨0, h⟩), ⟨1⟩)
    ∧ (roundRobinCalls (E := E) (FixedEndpointer eps) rr eps.length).1
        = ((List.range eps.length).map (fun j => (rr.c + j) % eps.length)).map
            (fun i => .endpoint (eps.getD i (eps.get ⟨0, h⟩)))
    ∧ ((List.range eps.length).map
        (fun j => (rr.c + j) % eps.length)).Perm (List.range eps.length) := by
  refine ⟨roundRobinEndpoint_nonempty rr h hc, ?_, ?_, window_indices_perm h rr.c⟩
  · rw [roundRobinEndpoint_nonempty newRoundRobin h
      (show newRoundRobin.c < uint64Mod from uint64Mod_pos)]
    have h0 : newRoundRobin.c % eps.length = 0 := Nat.zero_mod _
    have h1 : rrStep newRoundRobin.c = 1 := Nat.mod_eq_of_lt (by decide)
    rw [Prod.mk.injEq]
    constructor
    · congr 1
    · rw [h1]
  · have heta : rr = (⟨rr.c⟩ : roundRobin) := rfl
    rw [heta, roundRobinCalls_indices eps (eps.get ⟨0, h⟩) h eps.length rr.c hc,
      rrIndices_no_wrap eps.length eps.length rr.c hwrap, List.map_map]

/-- Witness for the amended C8 at a concrete input. -/
theorem C8_witness :
    (0 < ([10, 20, 30] : List Nat).length)
    ∧ ((⟨1⟩ : roundRobin).c < uint64Mod)
    ∧ ((⟨1⟩ : roundRobin).c + ([10, 20, 30] : List Nat).length ≤ uint64Mod)
    ∧ (roundRobinEndpoint (E := Nat) (FixedEndpointer [10, 20, 30]) ⟨1⟩
          = (.endpoint (([10, 20, 30] : List Nat).get
              ⟨(⟨1⟩ : roundRobin).c % ([10, 20, 30] : List Nat).length,
                Nat.mod_lt _ (by decide)⟩), ⟨rrStep (⟨1⟩ : roundRobin).c⟩)
      ∧ roundRobinEndpoint (E := Nat) (FixedEndpointer [10, 20, 30]) newRoundRobin
          = (.endpoint (([10, 20, 30] : List Nat).get ⟨0, by decide⟩), ⟨1⟩)
      ∧ (roundRobinCalls (E := Nat) (FixedEndpointer [10, 20, 30]) ⟨1⟩
            ([10, 20, 30] : List Nat).length).1
          = ((List.range ([10, 20, 30] : List Nat).length).map
              (fun j => ((⟨1⟩ : roundRobin).c + j)
                % ([10, 20, 30] : List Nat).length)).map
              (fun i => .endpoint (([10, 20, 30] : List Nat).getD i
                (([10, 20, 30] : List Nat).get ⟨0, by decide⟩)))
      ∧ ((List.range ([10, 20, 30] : List Nat).length).map
          (fun j => ((⟨1⟩ : roundRobin).c + j)
            % ([10, 20, 30] : List Nat).length)).Perm
          (List.range ([10, 20, 30] : List Nat).length)) :=
  ⟨by decide, by decide, by decide,
    C8_roundRobin_rotation [10, 20, 30] ⟨1⟩ (by decide) (by decide) (by decide)⟩

/-- C8 counterexample: at the counter state reached after 2^64 - 1 calls
from construction, the next three consecutive calls over the fixed pool
of endpoints 10, 20, 30 select 10, 10, 20 — the pool is not visited
exactly once per three consecutive calls, because the uint64 counter
wraps around. -/
theorem C8_counterexample :
    (roundRobinCalls (E := Nat) (FixedEndpointer [10, 20, 30])
        ⟨uint64Mod - 1⟩ 3).1
      = [.endpoint 10, .endpoint 10, .endpoint 20]
    ∧ LBResult.endpoint 30 ∉ (roundRobinCalls (E := Nat)
        (FixedEndpointer [10, 20, 30]) ⟨uint64Mod - 1⟩ 3).1
    ∧ (roundRobinCalls (E := Nat) (FixedEndpointer [10, 20, 30])
        newRoundRobin (uint64Mod - 1)).2 = ⟨uint64Mod - 1⟩ := by
  refine ⟨by decide, by decide, ?_⟩
  rw [show (newRoundRobin : roundRobin) = ⟨0⟩ from rfl,
    roundRobinCalls_counter [10, 20, 30] (by decide) (uint64Mod - 1) 0,
    rrStep_iterate]
  rw [Nat.mod_eq_of_lt (by have := uint64Mod_pos; omega)]

/-- C9: when the shared retry deadline expires before any attempt
succeeds (every attempt completing inside the budget fails, and the
attempt budget outlasts the timeout), the retrying operation stops with
the deadline error surfaced as-is — not wrapped in a RetryError, and
without looping forever. -/
theorem C9_retry_deadline {Res E : Type} (timeout max : Nat)
    (attempts : Nat → Nat × Except E Res)
    (hmax : 1 ≤ max)
    (hfail : ∀ i, 1 ≤ i → i ≤ max → cumDur attempts i < timeout →
      ∃ e, (attempts i).2 = .error e)
    (hbudget : timeout ≤ cumDur attempts max) :
    retry timeout max attempts = .deadline := by
  suffices h : ∀ (n i : Nat) (acc : List E), i + n = max → 1 ≤ i →
      retryLoop timeout attempts max i (cumDur attempts (i - 1)) acc
        = .deadline by
    have h0 := h (max - 1) 1 [] (by omega) le_rfl
    rw [retry]
    simpa [cumDur] using h0
  intro n
  induction n with
  | zero =>
    intro i acc hi h1
    have hieq : i = max := by omega
    subst hieq
    rw [retryLoop]
    have hcum : cumDur attempts (i - 1) + (attempts i).1 = cumDur attempts i := by
      have hi1 : i = (i - 1) + 1 := by omega
      rw [hi1]
      show cumDur attempts (i - 1 + 1 - 1) + _ = _
      rw [show i - 1 + 1 - 1 = i - 1 by omega]
      rfl
    rw [if_pos (by rw [hcum]; exact hbudget)]
  | succ n ih =>
    intro i acc hi h1
    rw [retryLoop]
    have hcum : cumDur attempts (i - 1) + (attempts i).1 = cumDur attempts i := by
      have hi1 : i = (i - 1) + 1 := by omega
      rw [hi1]
      show cumDur attempts (i - 1 + 1 - 1) + _ = _
      rw [show i - 1 + 1 - 1 = i - 1 by omega]
      rfl
    by_cases hd : timeout ≤ cumDur attempts (i - 1) + (attempts i).1
    · rw [if_pos hd]
    · rw [if_neg hd]
      have hlt : cumDur attempts i < timeout := by omega
      obtain ⟨e, he⟩ := hfail i h1 (by omega) hlt
      rw [he]
      show (if i < max then
          retryLoop timeout attempts max (i + 1)
            (cumDur attempts (i - 1) + (attempts i).1) (acc ++ [e])
        else RetryOutcome.exhausted ⟨e, acc ++ [e]⟩) = RetryOutcome.deadline
      rw [if_pos (show i < max by omega)]
      have := ih (i + 1) (acc ++ [e]) (by omega) (by omega)
      rw [show i + 1 - 1 = i by omega] at this
      rw [show cumDur attempts (i - 1) + (attempts i).1 = cumDur attempts i
        from hcum]
      exact this

/-- Witness for C9 at a concrete input: a single attempt taking 10 time
units against a timeout of 5. -/
theorem C9_witness :
    ((1 : Nat) ≤ 1)
    ∧ (∀ i, 1 ≤ i → i ≤ 1 →
        cumDur (fun _ => ((10 : Nat), (.error 0 : Except Nat Nat))) i < 5 →
        ∃ e, ((fun _ => ((10 : Nat), (.error 0 : Except Nat Nat))) i).2
          = .error e)
    ∧ ((5 : Nat) ≤ cumDur (fun _ => ((10 : Nat), (.error 0 : Except Nat Nat))) 1)
    ∧ retry 5 1 (fun _ => ((10 : Nat), (.error 0 : Except Nat Nat)))
        = .deadline :=
  ⟨le_rfl, fun _ _ _ _ => ⟨0, rfl⟩, by decide,
    C9_retry_deadline 5 1 _ le_rfl (fun _ _ _ _ => ⟨0, rfl⟩) (by decide)⟩

end KitGo
